/-
Verification of the parameter keyframe animation engine (systc.py).

The Python source is shallowly embedded: Python floats are modelled as
rationals (ℚ), Python lists as Lean lists, the parameter dictionary as an
association list in insertion order, and the JSON file as a structure
mirroring the serialized schema.  Each definition follows the control flow
of the corresponding Python function.
-/
import Mathlib

set_option linter.unusedVariables false

/-- The closed enumeration of interpolation modes, in Python declaration
order (class InterpolationType, systc.py lines 8-14). -/
inductive InterpolationType where
  | linear
  | bezier
  | step
  | easeIn
  | easeOut
  | easeInOut
deriving DecidableEq, Repr

/-- The string value of each enum member (systc.py lines 9-14). -/
def InterpolationType.value : InterpolationType → String
  | .linear => "Linear"
  | .bezier => "Bezier"
  | .step => "Step"
  | .easeIn => "Ease In"
  | .easeOut => "Ease Out"
  | .easeInOut => "Ease In-Out"

/-- Members of the enumeration in iteration order, as Python's
`for interp in InterpolationType` enumerates them. -/
def InterpolationType.members : List InterpolationType :=
  [.linear, .bezier, .step, .easeIn, .easeOut, .easeInOut]

/-- The lookup `next(interp for interp in InterpolationType if interp.value == name)`
used at systc.py lines 481 and 1034; `none` models the StopIteration raised
when the name matches no member. -/
def findInterpolation (s : String) : Option InterpolationType :=
  InterpolationType.members.find? (fun i => i.value == s)

/-- A keyframe (class Keyframe, systc.py lines 94-99). -/
structure Keyframe where
  frame : ℚ
  value : ℚ
  interpolation : InterpolationType
  selected : Bool
deriving DecidableEq, Repr

/-- Keyframe construction (`Keyframe.__init__`): `selected` starts false. -/
def Keyframe.init (frame value : ℚ) (interpolation : InterpolationType) : Keyframe :=
  { frame := frame, value := value, interpolation := interpolation, selected := false }

/-- An animation parameter (class AnimationParameter, systc.py lines 16-25). -/
structure AnimationParameter where
  name : String
  min_value : ℚ
  max_value : ℚ
  default_value : ℚ
  param_type : String
  keyframes : List Keyframe
  visible : Bool
  color : String
deriving DecidableEq, Repr

/-- `AnimationParameter.__init__`: fresh parameter with no keyframes,
visible, default color. -/
def AnimationParameter.init (name : String) (min_value max_value default_value : ℚ) :
    AnimationParameter :=
  { name := name, min_value := min_value, max_value := max_value,
    default_value := default_value, param_type := "float",
    keyframes := [], visible := true, color := "#4CAF50" }

/-- Python's `self.keyframes.sort(key=lambda kf: kf.frame)` is a stable sort
by frame; all stable sorts under the same key agree, so it is modelled by
insertion sort. -/
def sortByFrame (kfs : List Keyframe) : List Keyframe :=
  kfs.insertionSort (fun a b => a.frame ≤ b.frame)

/-- `AnimationParameter.add_keyframe` (systc.py lines 27-33): drop any
keyframe at the same frame, append the new one, re-sort by frame. -/
def AnimationParameter.add_keyframe (p : AnimationParameter) (frame value : ℚ)
    (interpolation : InterpolationType) : AnimationParameter :=
  { p with keyframes :=
      sortByFrame ((p.keyframes.filter (fun kf => kf.frame ≠ frame)) ++
        [Keyframe.init frame value interpolation]) }

/-- `AnimationParameter.remove_keyframe` (systc.py lines 35-36). -/
def AnimationParameter.remove_keyframe (p : AnimationParameter) (frame : ℚ) :
    AnimationParameter :=
  { p with keyframes := p.keyframes.filter (fun kf => kf.frame ≠ frame) }

/-- One step of the scan at systc.py lines 46-50: `before_kf` is overwritten
by every keyframe with frame ≤ query; `after_kf` is set by the first
keyframe with frame ≥ query and then kept. -/
def stepNeighbors (frame : ℚ) (ba : Option Keyframe × Option Keyframe) (kf : Keyframe) :
    Option Keyframe × Option Keyframe :=
  (if kf.frame ≤ frame then some kf else ba.1,
   if frame ≤ kf.frame ∧ ba.2 = none then some kf else ba.2)

/-- The loop at systc.py lines 43-50 computing the surrounding keyframes. -/
def findNeighbors (frame : ℚ) (kfs : List Keyframe) :
    Option Keyframe × Option Keyframe :=
  kfs.foldl (stepNeighbors frame) (none, none)

/-- `AnimationParameter.interpolate` (systc.py lines 65-92). -/
def AnimationParameter.interpolate (kf1 kf2 : Keyframe) (frame : ℚ) : ℚ :=
  if kf1.frame = kf2.frame then kf1.value
  else
    let t := (frame - kf1.frame) / (kf2.frame - kf1.frame)
    match kf1.interpolation with
    | .step => kf1.value
    | .linear => kf1.value + (kf2.value - kf1.value) * t
    | .easeIn => kf1.value + (kf2.value - kf1.value) * (t * t)
    | .easeOut => kf1.value + (kf2.value - kf1.value) * (1 - (1 - t) * (1 - t))
    | .easeInOut =>
        if t < 1/2 then kf1.value + (kf2.value - kf1.value) * (2 * t * t)
        else kf1.value + (kf2.value - kf1.value) * (1 - 2 * (1 - t) * (1 - t))
    | .bezier => kf1.value + (kf2.value - kf1.value) * (t * t * (3 - 2 * t))

/-- `AnimationParameter.get_value_at_frame` (systc.py lines 38-63). -/
def AnimationParameter.get_value_at_frame (p : AnimationParameter) (frame : ℚ) : ℚ :=
  if p.keyframes.isEmpty then p.default_value
  else
    match findNeighbors frame p.keyframes with
    | (none, none) => p.default_value
    | (none, some after_kf) => after_kf.value
    | (some before_kf, none) => before_kf.value
    | (some before_kf, some after_kf) =>
        if before_kf.frame = frame then before_kf.value
        else AnimationParameter.interpolate before_kf after_kf frame

/-- The fixed rotating palette `self.parameter_colors` (systc.py lines 137-140). -/
def parameter_colors : List String :=
  ["#4CAF50", "#2196F3", "#FF9800", "#E91E63", "#9C27B0",
   "#00BCD4", "#8BC34A", "#FF5722", "#607D8B", "#795548"]

/-- `TimelineApp.add_keyframe` (systc.py lines 466-489), restricted to its
data effect: clamp the value into the parameter's range, then insert via
`AnimationParameter.add_keyframe`. -/
def TimelineApp.add_keyframe (p : AnimationParameter) (current_frame value : ℚ)
    (interpolation : InterpolationType) : AnimationParameter :=
  let v := max p.min_value (min p.max_value value)
  p.add_keyframe current_frame v interpolation

/-- A timeline marker, per the serialized schema. -/
structure Marker where
  frame : ℤ
  label : String
deriving DecidableEq, Repr

/-- A timeline clip, per the serialized schema (`end` renamed `endFrame`). -/
structure Clip where
  label : String
  start : ℤ
  endFrame : ℤ
deriving DecidableEq, Repr

/-- The parameter store: Python dict from name to AnimationParameter,
modelled as an association list in insertion order. -/
abbrev ParameterStore := List (String × AnimationParameter)

/-- Python `store[k] = v`: replaces the value in place if the key is
present, otherwise appends. -/
def dictInsert (store : ParameterStore) (k : String) (v : AnimationParameter) :
    ParameterStore :=
  if store.any (fun np => np.1 == k) then
    store.map (fun np => if np.1 = k then (k, v) else np)
  else
    store ++ [(k, v)]

/-- Python `del store[k]`. -/
def dictErase (store : ParameterStore) (k : String) : ParameterStore :=
  store.filter (fun np => np.1 ≠ k)

/-- `TimelineApp.edit_parameter` (systc.py lines 403-431), data effect given
the dialog result `(new_name, min_val, max_val, default_val)`: when the name
changes, the old key is deleted and the (renamed) parameter is stored under
the new key with no duplicate check; then range and default are replaced.
Returns `none` when `old` is absent (Python would raise KeyError). -/
def TimelineApp.edit_parameter (store : ParameterStore) (old new : String)
    (min_val max_val default_val : ℚ) : Option ParameterStore :=
  (store.lookup old).map (fun param =>
    let updated := { param with
      name := if new ≠ old then new else param.name,
      min_value := min_val, max_value := max_val, default_value := default_val }
    if new ≠ old then dictInsert (dictErase store old) new updated
    else dictInsert store old updated)

/-- Serialized form of one parameter, mirroring the JSON written at
systc.py lines 993-998: keyframes become `(frame, value, interpolation.value)`
triples. -/
structure SavedParameter where
  min_value : ℚ
  max_value : ℚ
  default_value : ℚ
  keyframes : List (ℚ × ℚ × String)
deriving DecidableEq, Repr

/-- The serialized timeline file, mirroring the JSON schema written at
systc.py lines 987-1001. -/
structure TimelineData where
  frame_rate : ℚ
  duration : ℤ
  markers : List Marker
  clips : List Clip
  animation_parameters : List (String × SavedParameter)
deriving DecidableEq, Repr

/-- The loadable in-memory state of TimelineApp: the fields written by
`load_timeline` (systc.py lines 1018-1041). -/
structure AppState where
  current_frame_rate : ℚ
  timeline_duration : ℤ
  markers : List Marker
  clips : List Clip
  animation_parameters : ParameterStore
deriving DecidableEq, Repr

/-- Serialization of one parameter (systc.py lines 993-998). -/
def savedOfParameter (p : AnimationParameter) : SavedParameter :=
  { min_value := p.min_value,
    max_value := p.max_value,
    default_value := p.default_value,
    keyframes := p.keyframes.map
      (fun kf => (kf.frame, kf.value, kf.interpolation.value)) }

/-- `TimelineApp.save_timeline` (systc.py lines 981-1007), restricted to the
data it serializes. -/
def TimelineApp.save_timeline (s : AppState) : TimelineData :=
  { frame_rate := s.current_frame_rate,
    duration := s.timeline_duration,
    markers := s.markers,
    clips := s.clips,
    animation_parameters :=
      s.animation_parameters.map (fun np => (np.1, savedOfParameter np.2)) }

/-- The inner loop of `load_timeline` (systc.py lines 1033-1035): re-insert
each stored keyframe through `AnimationParameter.add_keyframe`; `none` when
an interpolation name is not in the enumeration (StopIteration). -/
def buildKeyframes (p : AnimationParameter) :
    List (ℚ × ℚ × String) → Option AnimationParameter
  | [] => some p
  | (frame, value, interp_name) :: rest =>
      match findInterpolation interp_name with
      | none => none
      | some interpolation =>
          buildKeyframes (p.add_keyframe frame value interpolation) rest

/-- Reconstruction of one parameter during load (systc.py lines 1027-1035). -/
def buildParam (name : String) (pd : SavedParameter) : Option AnimationParameter :=
  buildKeyframes (AnimationParameter.init name pd.min_value pd.max_value pd.default_value)
    pd.keyframes

/-- The parameter-loading loop of `load_timeline` (systc.py lines 1026-1041):
`acc` is the (cleared, then repopulated) dict.  Each rebuilt parameter gets
a color by current dict length before insertion.  The Bool is false when
a StopIteration aborted the loop, leaving `acc` partially repopulated. -/
def loadParams : List (String × SavedParameter) → ParameterStore →
    ParameterStore × Bool
  | [], acc => (acc, true)
  | (name, pd) :: rest, acc =>
      match buildParam name pd with
      | none => (acc, false)
      | some param =>
          let colored := { param with
            color := parameter_colors.getD (acc.length % parameter_colors.length)
              "#4CAF50" }
          loadParams rest (dictInsert acc name colored)

/-- The single failure kind reachable in this model of `load_timeline`. -/
inductive LoadError where
  | unknownInterpolation
deriving DecidableEq, Repr

/-- `TimelineApp.load_timeline` (systc.py lines 1009-1054).  The scalar
fields, markers and clips are overwritten first (lines 1018-1021), then the
parameter dict is cleared and repopulated (lines 1024-1041); an unknown
interpolation name raises mid-loop and is caught by the generic handler at
line 1053, so the partially mutated state is kept. -/
def TimelineApp.load_timeline (s : AppState) (d : TimelineData) :
    AppState × Option LoadError :=
  let s1 := { s with
    current_frame_rate := d.frame_rate,
    timeline_duration := d.duration,
    markers := d.markers,
    clips := d.clips }
  match loadParams d.animation_parameters [] with
  | (params, true) => ({ s1 with animation_parameters := params }, none)
  | (params, false) =>
      ({ s1 with animation_parameters := params }, some .unknownInterpolation)

/-- Python float floor division `x // y`. -/
def pyFloorDiv (x y : ℚ) : ℚ := (⌊x / y⌋ : ℤ)

/-- Python float modulo `x % y` (sign of the divisor). -/
def pyMod (x y : ℚ) : ℚ := x - y * (⌊x / y⌋ : ℤ)

/-- Python `int(x)`: truncation toward zero. -/
def pyTrunc (x : ℚ) : ℤ := if 0 ≤ x then ⌊x⌋ else ⌈x⌉

/-- `TimelineApp.frame_to_time` (systc.py lines 552-559), as a pure function
of the frame and the frame rate, returning the four numeric fields
(hours, minutes, seconds, frame remainder) of the `HH:MM:SS:FF` display. -/
def TimelineApp.frame_to_time (frame frame_rate : ℚ) : ℤ × ℤ × ℤ × ℤ :=
  let total_seconds := frame / frame_rate
  (pyTrunc (pyFloorDiv total_seconds 3600),
   pyTrunc (pyFloorDiv (pyMod total_seconds 3600) 60),
   pyTrunc (pyMod total_seconds 60),
   pyTrunc (pyMod frame frame_rate))

/-- Per-segment remap of the normalized time, following the wording of the
spec (§4.1): Linear keeps `t`, EaseIn squares it, EaseOut mirrors the
square, EaseInOut pieces the two halves together, Bezier is the smoothstep
`t²(3-2t)`.  Step does not use a remap (the spec returns kf1.value). -/
def specRemap : InterpolationType → ℚ → ℚ
  | .step, _ => 0
  | .linear, t => t
  | .easeIn, t => t * t
  | .easeOut, t => 1 - (1 - t) * (1 - t)
  | .easeInOut, t => if t < 1/2 then 2 * t * t else 1 - 2 * (1 - t) * (1 - t)
  | .bezier, t => t * t * (3 - 2 * t)

/-- Segment evaluation as worded by the spec (§4.1): compute
`t = (frame - kf1.frame) / (kf2.frame - kf1.frame)`, remap it per
`kf1.interpolation`, return `kf1.value + (kf2.value - kf1.value) * t'`;
for Step the result is `kf1.value`. -/
def specInterpolate (kf1 kf2 : Keyframe) (frame : ℚ) : ℚ :=
  let t := (frame - kf1.frame) / (kf2.frame - kf1.frame)
  match kf1.interpolation with
  | .step => kf1.value
  | m => kf1.value + (kf2.value - kf1.value) * specRemap m t

/-- Strict ordering invariant: keyframe frames strictly ascending. -/
def SortedStrict (kfs : List Keyframe) : Prop :=
  kfs.Pairwise (fun a b => a.frame < b.frame)

instance : DecidablePred SortedStrict := fun kfs =>
  inferInstanceAs (Decidable (List.Pairwise _ kfs))

instance : IsTotal Keyframe (fun a b => a.frame ≤ b.frame) :=
  ⟨fun a b => le_total a.frame b.frame⟩

instance : IsTrans Keyframe (fun a b => a.frame ≤ b.frame) :=
  ⟨fun _ _ _ hab hbc => le_trans hab hbc⟩

/-- True when some serialized keyframe carries an interpolation name outside
the enumeration, which makes the load loop abort. -/
def hasUnknownInterp (pd : SavedParameter) : Bool :=
  pd.keyframes.any (fun t => (findInterpolation t.2.2).isNone)

/-- The keyframe produced for a stored `(frame, value, mode)` triple by the
load path: same data, `selected` reset to false. -/
def rebuildKeyframe (kf : Keyframe) : Keyframe :=
  Keyframe.init kf.frame kf.value kf.interpolation

/-- The parameter produced by the load path for the parameter at store
position `i`: same name, range, default and keyframe triples; `selected`
false everywhere; color re-derived from the palette by position. -/
def rebuildParameter (name : String) (p : AnimationParameter) (i : ℕ) :
    AnimationParameter :=
  { name := name, min_value := p.min_value, max_value := p.max_value,
    default_value := p.default_value, param_type := "float",
    keyframes := p.keyframes.map rebuildKeyframe, visible := true,
    color := parameter_colors.getD (i % parameter_colors.length) "#4CAF50" }

/-- The whole store as reconstructed by a successful load, positions
starting at `i`. -/
def rebuiltStore : ParameterStore → ℕ → ParameterStore
  | [], _ => []
  | (n, p) :: rest, i => (n, rebuildParameter n p i) :: rebuiltStore rest (i + 1)

/-- A prior in-memory state, used as concrete input below. -/
def demoPrior : AppState :=
  { current_frame_rate := 30, timeline_duration := 3600,
    markers := [], clips := [], animation_parameters := [] }

/-- A concrete state holding the spec's Opacity scenario, with one selected
keyframe and a non-initial palette color. -/
def demoState : AppState :=
  { current_frame_rate := 24, timeline_duration := 120,
    markers := [{ frame := 5, label := "m" }],
    clips := [{ label := "c", start := 0, endFrame := 10 }],
    animation_parameters :=
      [("Opacity",
        { name := "Opacity", min_value := 0, max_value := 100,
          default_value := 100, param_type := "float",
          keyframes :=
            [{ frame := 0, value := 0, interpolation := .linear, selected := false },
             { frame := 30, value := 100, interpolation := .easeOut, selected := true }],
          visible := true, color := "#9C27B0" })] }

/-- A serialized document whose keyframe interpolation name `"Quadratic"`
is not in the enumeration. -/
def badData : TimelineData :=
  { frame_rate := 24, duration := 100, markers := [], clips := [],
    animation_parameters :=
      [("P", { min_value := 0, max_value := 1, default_value := 0,
               keyframes := [(0, 1, "Quadratic")] })] }

/-- A store with two parameters, used to exercise the rename path. -/
def demoStoreAB : ParameterStore :=
  [("A", AnimationParameter.init "A" 0 100 0),
   ("B", AnimationParameter.init "B" 0 50 5)]

/-! Basic facts about the sort used by `add_keyframe`. -/

lemma sortByFrame_perm (kfs : List Keyframe) : List.Perm (sortByFrame kfs) kfs :=
  List.perm_insertionSort _ _

lemma sortByFrame_sorted (kfs : List Keyframe) :
    (sortByFrame kfs).Pairwise (fun a b => a.frame ≤ b.frame) :=
  List.sorted_insertionSort _ _

lemma sortByFrame_eq_of_sorted {kfs : List Keyframe}
    (h : kfs.Pairwise (fun a b => a.frame ≤ b.frame)) : sortByFrame kfs = kfs :=
  List.Sorted.insertionSort_eq h

lemma framesNodup_of_sortedStrict {kfs : List Keyframe} (h : SortedStrict kfs) :
    (kfs.map Keyframe.frame).Nodup :=
  List.pairwise_map.mpr (h.imp ne_of_lt)

lemma sortedStrict_of_le_nodup {kfs : List Keyframe}
    (hle : kfs.Pairwise (fun a b => a.frame ≤ b.frame))
    (hnd : (kfs.map Keyframe.frame).Nodup) : SortedStrict kfs := by
  have hne : kfs.Pairwise (fun a b => a.frame ≠ b.frame) := List.pairwise_map.mp hnd
  exact (hle.and hne).imp (fun h => lt_of_le_of_ne h.1 h.2)

lemma add_keyframe_sortedStrict (p : AnimationParameter) (f v : ℚ)
    (m : InterpolationType) (h : (p.keyframes.map Keyframe.frame).Nodup) :
    SortedStrict (p.add_keyframe f v m).keyframes := by
  apply sortedStrict_of_le_nodup (sortByFrame_sorted _)
  apply ((sortByFrame_perm _).map Keyframe.frame).nodup_iff.mpr
  rw [List.map_append]
  have hsub : List.Sublist
      ((p.keyframes.filter (fun kf => kf.frame ≠ f)).map Keyframe.frame)
      (p.keyframes.map Keyframe.frame) :=
    (List.filter_sublist _).map _
  refine (List.nodup_append_comm.mpr ?_)
  simp only [List.map_cons, List.map_nil, List.singleton_append]
  refine List.nodup_cons.mpr ⟨?_, h.sublist hsub⟩
  intro hmem
  obtain ⟨kf, hkf, hfe⟩ := List.mem_map.mp hmem
  have hne := List.of_mem_filter hkf
  simp only [decide_eq_true_eq] at hne
  exact hne (by simpa [Keyframe.init] using hfe)

/-! C2: the per-segment interpolation formulas. -/

/-- C2: for every query frame strictly between two keyframes, `interpolate`
computes `t = (frame - kf1.frame) / (kf2.frame - kf1.frame)`, remaps it per
`kf1.interpolation` (Step discards it and yields `kf1.value`; Linear keeps
`t`; EaseIn `t²`; EaseOut `1-(1-t)²`; EaseInOut `2t²` below `t = 1/2` and
`1-2(1-t)²` above; Bezier the smoothstep `t²(3-2t)`), and returns
`kf1.value + (kf2.value - kf1.value) * t'`. -/
theorem interpolate_matches_spec (kf1 kf2 : Keyframe) (frame : ℚ)
    (h1 : kf1.frame < frame) (h2 : frame < kf2.frame) :
    AnimationParameter.interpolate kf1 kf2 frame = specInterpolate kf1 kf2 frame := by
  have hne : kf1.frame ≠ kf2.frame := ne_of_lt (h1.trans h2)
  cases hI : kf1.interpolation <;>
    simp [AnimationParameter.interpolate, specInterpolate, specRemap, hne, hI] <;>
    split_ifs <;> ring

theorem interpolate_matches_spec_witness :
    ((0 : ℚ) < 2 ∧ (2 : ℚ) < 10) ∧
      AnimationParameter.interpolate ⟨0, 0, .easeInOut, false⟩ ⟨10, 10, .linear, false⟩ 2 =
        specInterpolate ⟨0, 0, .easeInOut, false⟩ ⟨10, 10, .linear, false⟩ 2 :=
  ⟨⟨by norm_num, by norm_num⟩,
   interpolate_matches_spec ⟨0, 0, .easeInOut, false⟩ ⟨10, 10, .linear, false⟩ 2
     (by norm_num) (by norm_num)⟩

/-! Membership facts about `add_keyframe`. -/

lemma mem_add_keyframe_new (p : AnimationParameter) (f v : ℚ) (m : InterpolationType) :
    Keyframe.init f v m ∈ (p.add_keyframe f v m).keyframes :=
  (sortByFrame_perm _).mem_iff.mpr (List.mem_append_right _ (List.mem_singleton_self _))

lemma mem_add_keyframe_elim {p : AnimationParameter} {f v : ℚ} {m : InterpolationType}
    {kf : Keyframe} (h : kf ∈ (p.add_keyframe f v m).keyframes) :
    kf = Keyframe.init f v m ∨ (kf ∈ p.keyframes ∧ kf.frame ≠ f) := by
  have h' := (sortByFrame_perm _).mem_iff.mp h
  rcases List.mem_append.mp h' with h1 | h1
  · right
    refine ⟨List.mem_of_mem_filter h1, ?_⟩
    have := List.of_mem_filter h1
    simpa using this
  · left; simpa using h1

lemma filter_ne_length {kfs : List Keyframe} (hs : SortedStrict kfs)
    {kf0 : Keyframe} (hmem : kf0 ∈ kfs) {f : ℚ} (hf : kf0.frame = f) :
    (kfs.filter (fun kf => kf.frame ≠ f)).length + 1 = kfs.length := by
  induction kfs with
  | nil => cases hmem
  | cons a t ih =>
    have hs : (∀ b ∈ t, a.frame < b.frame) ∧ SortedStrict t := List.pairwise_cons.mp hs
    by_cases ha : a.frame = f
    · have ht : t.filter (fun kf => kf.frame ≠ f) = t :=
        List.filter_eq_self.mpr (fun b hb => by
          simp only [decide_eq_true_eq]
          exact ne_of_gt (ha ▸ hs.1 b hb))
      simp only [List.filter_cons, decide_eq_true_eq]
      rw [if_neg (not_not_intro ha), ht, List.length_cons]
    · have hmem' : kf0 ∈ t := by
        rcases List.mem_cons.mp hmem with h | h
        · exact absurd (h ▸ hf) ha
        · exact h
      have hrec := ih hs.2 hmem'
      simp only [List.filter_cons, decide_eq_true_eq]
      rw [if_pos ha]
      simp only [List.length_cons]
      omega

/-! C7: clamp-on-insert. -/

/-- C7: `TimelineApp.add_keyframe` stores the value clamped into
`[min_value, max_value]`; the clamped value lies in the range, and
previously stored keyframes (at other frames) are carried over unchanged,
not re-clamped. -/
theorem add_keyframe_clamps_value (p : AnimationParameter) (f v : ℚ)
    (m : InterpolationType) (h : p.min_value ≤ p.max_value) :
    Keyframe.init f (max p.min_value (min p.max_value v)) m ∈
      (TimelineApp.add_keyframe p f v m).keyframes ∧
    p.min_value ≤ max p.min_value (min p.max_value v) ∧
    max p.min_value (min p.max_value v) ≤ p.max_value ∧
    ∀ kf ∈ (TimelineApp.add_keyframe p f v m).keyframes, kf.frame ≠ f →
      kf ∈ p.keyframes := by
  refine ⟨mem_add_keyframe_new p f _ m, le_max_left _ _,
    max_le h (min_le_left _ _), ?_⟩
  intro kf hkf hne
  rcases mem_add_keyframe_elim hkf with h1 | h1
  · exact absurd (by simp [h1, Keyframe.init]) hne
  · exact h1.1

theorem add_keyframe_clamps_value_witness :
    Keyframe.init 3 100 .linear ∈
      (TimelineApp.add_keyframe (AnimationParameter.init "Opacity" 0 100 100)
        3 150 .linear).keyframes := by
  have h := add_keyframe_clamps_value (AnimationParameter.init "Opacity" 0 100 100)
    3 150 .linear (by norm_num [AnimationParameter.init])
  have e : max (AnimationParameter.init "Opacity" 0 100 100).min_value
      (min (AnimationParameter.init "Opacity" 0 100 100).max_value 150) = 100 := by
    norm_num [AnimationParameter.init]
  exact e ▸ h.1

/-! C6: replace semantics at an occupied frame. -/

/-- C6: adding at a frame that already holds a keyframe keeps the sequence
length, puts the new `(value, mode)` entry there, leaves no duplicate entry
at that frame, and keeps the strict ordering; no error is reported (the
operation is total). -/
theorem add_keyframe_replaces_existing (p : AnimationParameter) (f v : ℚ)
    (m : InterpolationType) (kf0 : Keyframe) (hs : SortedStrict p.keyframes)
    (hmem : kf0 ∈ p.keyframes) (hf : kf0.frame = f) :
    (p.add_keyframe f v m).keyframes.length = p.keyframes.length ∧
    Keyframe.init f v m ∈ (p.add_keyframe f v m).keyframes ∧
    (∀ kf ∈ (p.add_keyframe f v m).keyframes, kf.frame = f → kf = Keyframe.init f v m) ∧
    SortedStrict (p.add_keyframe f v m).keyframes := by
  refine ⟨?_, mem_add_keyframe_new _ _ _ _, ?_,
    add_keyframe_sortedStrict _ _ _ _ (framesNodup_of_sortedStrict hs)⟩
  · calc (p.add_keyframe f v m).keyframes.length
        = ((p.keyframes.filter (fun kf => kf.frame ≠ f)) ++
            [Keyframe.init f v m]).length := (sortByFrame_perm _).length_eq
      _ = (p.keyframes.filter (fun kf => kf.frame ≠ f)).length + 1 := by simp
      _ = p.keyframes.length := filter_ne_length hs hmem hf
  · intro kf hkf hfe
    rcases mem_add_keyframe_elim hkf with h1 | h1
    · exact h1
    · exact absurd hfe h1.2

theorem add_keyframe_replaces_existing_witness :
    ((⟨"A", 0, 100, 0, "float", [⟨5, 7, .linear, false⟩], true, "#4CAF50"⟩ :
        AnimationParameter).add_keyframe 5 3 .step).keyframes.length =
      (⟨"A", 0, 100, 0, "float", [⟨5, 7, .linear, false⟩], true, "#4CAF50"⟩ :
        AnimationParameter).keyframes.length ∧
    Keyframe.init 5 3 .step ∈
      ((⟨"A", 0, 100, 0, "float", [⟨5, 7, .linear, false⟩], true, "#4CAF50"⟩ :
        AnimationParameter).add_keyframe 5 3 .step).keyframes := by
  have h := add_keyframe_replaces_existing
    ⟨"A", 0, 100, 0, "float", [⟨5, 7, .linear, false⟩], true, "#4CAF50"⟩ 5 3 .step
    ⟨5, 7, .linear, false⟩ (by decide) (by decide) (by decide)
  exact ⟨h.1, h.2.1⟩

/-! C5: the strict ordering invariant. -/

lemma buildKeyframes_sortedStrict (ts : List (ℚ × ℚ × String)) :
    ∀ p : AnimationParameter, SortedStrict p.keyframes →
      ∀ q, buildKeyframes p ts = some q → SortedStrict q.keyframes := by
  induction ts with
  | nil =>
    intro p hp q hq
    simp only [buildKeyframes, Option.some.injEq] at hq
    exact hq ▸ hp
  | cons t rest ih =>
    intro p hp q hq
    obtain ⟨f, v, s⟩ := t
    simp only [buildKeyframes] at hq
    cases hFind : findInterpolation s with
    | none => rw [hFind] at hq; cases hq
    | some m =>
      rw [hFind] at hq
      exact ih _ (add_keyframe_sortedStrict p f v m (framesNodup_of_sortedStrict hp)) q hq

/-- C5: within one parameter the keyframe sequence stays strictly ascending
by frame (hence duplicate-free) across `add_keyframe` and `remove_keyframe`,
and the load path, which re-inserts every stored keyframe through the same
add operation, re-establishes the invariant for any file contents. -/
theorem keyframe_order_invariant :
    (∀ (p : AnimationParameter) (f v : ℚ) (m : InterpolationType),
      SortedStrict p.keyframes → SortedStrict (p.add_keyframe f v m).keyframes) ∧
    (∀ (p : AnimationParameter) (f : ℚ),
      SortedStrict p.keyframes → SortedStrict (p.remove_keyframe f).keyframes) ∧
    (∀ (name : String) (pd : SavedParameter) (p : AnimationParameter),
      buildParam name pd = some p → SortedStrict p.keyframes) := by
  refine ⟨fun p f v m hs =>
      add_keyframe_sortedStrict p f v m (framesNodup_of_sortedStrict hs),
    fun p f hs => hs.sublist (List.filter_sublist _),
    fun name pd p h =>
      buildKeyframes_sortedStrict pd.keyframes
        (AnimationParameter.init name pd.min_value pd.max_value pd.default_value)
        List.Pairwise.nil p h⟩

theorem keyframe_order_invariant_witness :
    SortedStrict ((AnimationParameter.init "A" 0 100 0).add_keyframe 5 1 .linear).keyframes ∧
    SortedStrict ((AnimationParameter.init "A" 0 100 0).remove_keyframe 5).keyframes ∧
    SortedStrict (((buildParam "B"
        ⟨0, 100, 0, [(3, 1, "Linear"), (1, 2, "Step")]⟩).getD
      (AnimationParameter.init "B" 0 100 0)).keyframes) := by
  refine ⟨keyframe_order_invariant.1 _ 5 1 .linear (by decide),
    keyframe_order_invariant.2.1 _ 5 (by decide),
    keyframe_order_invariant.2.2 "B" ⟨0, 100, 0, [(3, 1, "Linear"), (1, 2, "Step")]⟩
      _ (by decide)⟩

/-! Facts about the neighbor scan of `get_value_at_frame`. -/

lemma foldl_neighbors_snd_frozen (frame : ℚ) (kfs : List Keyframe) :
    ∀ (b0 : Option Keyframe) (a : Keyframe),
      (kfs.foldl (stepNeighbors frame) (b0, some a)).2 = some a := by
  induction kfs with
  | nil => intro b0 a; rfl
  | cons kf t ih =>
    intro b0 a
    have hstep : stepNeighbors frame (b0, some a) kf =
        ((if kf.frame ≤ frame then some kf else b0), some a) := by
      simp [stepNeighbors]
    rw [List.foldl_cons, hstep]
    exact ih _ a

lemma foldl_neighbors_fst_of_none (frame : ℚ) (kfs : List Keyframe)
    (h : ∀ kf ∈ kfs, ¬ kf.frame ≤ frame) :
    ∀ init, (kfs.foldl (stepNeighbors frame) init).1 = init.1 := by
  induction kfs with
  | nil => intro init; rfl
  | cons kf t ih =>
    intro init
    have hstep : (stepNeighbors frame init kf).1 = init.1 := by
      simp [stepNeighbors, h kf (List.mem_cons_self kf t)]
    rw [List.foldl_cons]
    rw [ih (fun x hx => h x (List.mem_cons_of_mem _ hx)) _]
    exact hstep

lemma foldl_neighbors_snd_of_none (frame : ℚ) (kfs : List Keyframe)
    (h : ∀ kf ∈ kfs, ¬ frame ≤ kf.frame) :
    ∀ init, (kfs.foldl (stepNeighbors frame) init).2 = init.2 := by
  induction kfs with
  | nil => intro init; rfl
  | cons kf t ih =>
    intro init
    have hstep : (stepNeighbors frame init kf).2 = init.2 := by
      simp [stepNeighbors, h kf (List.mem_cons_self kf t)]
    rw [List.foldl_cons]
    rw [ih (fun x hx => h x (List.mem_cons_of_mem _ hx)) _]
    exact hstep

lemma foldl_neighbors_fst_all_le (frame : ℚ) (kfs : List Keyframe)
    (hle : ∀ kf ∈ kfs, kf.frame ≤ frame) :
    ∀ init, kfs ≠ [] → (kfs.foldl (stepNeighbors frame) init).1 = kfs.getLast? := by
  induction kfs with
  | nil => intro init h; exact absurd rfl h
  | cons kf t ih =>
    intro init _
    have hstep : stepNeighbors frame init kf = (some kf, (stepNeighbors frame init kf).2) := by
      have := hle kf (List.mem_cons_self kf t)
      simp [stepNeighbors, this]
    cases t with
    | nil => rw [List.foldl_cons, List.foldl_nil, hstep]; rfl
    | cons b t' =>
      rw [List.foldl_cons, hstep]
      rw [ih (fun x hx => hle x (List.mem_cons_of_mem _ hx)) _ (by simp)]
      rfl

lemma foldl_neighbors_fst_mem (frame : ℚ) (kfs : List Keyframe) :
    ∀ init b, (kfs.foldl (stepNeighbors frame) init).1 = some b →
      init.1 = some b ∨ (b ∈ kfs ∧ b.frame ≤ frame) := by
  induction kfs with
  | nil => intro init b h; exact Or.inl h
  | cons kf t ih =>
    intro init b h
    rcases ih _ b (by rw [List.foldl_cons] at h; exact h) with h1 | h1
    · by_cases hle : kf.frame ≤ frame
      · right
        have : some kf = some b := by simpa [stepNeighbors, hle] using h1
        obtain rfl : kf = b := Option.some.injEq _ _ ▸ this
        exact ⟨List.mem_cons_self _ _, hle⟩
      · left
        simpa [stepNeighbors, hle] using h1
    · exact Or.inr ⟨List.mem_cons_of_mem _ h1.1, h1.2⟩

lemma foldl_neighbors_snd_mem (frame : ℚ) (kfs : List Keyframe) :
    ∀ init a, (kfs.foldl (stepNeighbors frame) init).2 = some a →
      init.2 = some a ∨ (a ∈ kfs ∧ frame ≤ a.frame) := by
  induction kfs with
  | nil => intro init a h; exact Or.inl h
  | cons kf t ih =>
    intro init a h
    rcases ih _ a (by rw [List.foldl_cons] at h; exact h) with h1 | h1
    · by_cases hcond : frame ≤ kf.frame ∧ init.2 = none
      · right
        have : some kf = some a := by simpa [stepNeighbors, hcond.1, hcond.2] using h1
        obtain rfl : kf = a := Option.some.injEq _ _ ▸ this
        exact ⟨List.mem_cons_self _ _, hcond.1⟩
      · left
        simpa [stepNeighbors, if_neg hcond] using h1
    · exact Or.inr ⟨List.mem_cons_of_mem _ h1.1, h1.2⟩

lemma foldl_neighbors_fst_isSome (frame : ℚ) (kfs : List Keyframe) :
    ∀ init, init.1.isSome → (kfs.foldl (stepNeighbors frame) init).1.isSome := by
  induction kfs with
  | nil => intro init h; exact h
  | cons kf t ih =>
    intro init h
    rw [List.foldl_cons]
    refine ih _ ?_
    by_cases hle : kf.frame ≤ frame <;> simp [stepNeighbors, hle, h]

lemma foldl_neighbors_snd_isSome (frame : ℚ) (kfs : List Keyframe) :
    ∀ init, init.2.isSome → (kfs.foldl (stepNeighbors frame) init).2.isSome := by
  induction kfs with
  | nil => intro init h; exact h
  | cons kf t ih =>
    intro init h
    rw [List.foldl_cons]
    refine ih _ ?_
    have : init.2 ≠ none := by
      intro he; rw [he] at h; cases h
    simp [stepNeighbors, this, h]

lemma findNeighbors_ne_none_none (frame : ℚ) (kfs : List Keyframe) (h : kfs ≠ []) :
    findNeighbors frame kfs ≠ (none, none) := by
  cases kfs with
  | nil => exact absurd rfl h
  | cons kf t =>
    intro heq
    unfold findNeighbors at heq
    rw [List.foldl_cons] at heq
    by_cases hle : kf.frame ≤ frame
    · have hsome : (stepNeighbors frame (none, none) kf).1.isSome := by
        simp [stepNeighbors, hle]
      have := foldl_neighbors_fst_isSome frame t _ hsome
      rw [heq] at this
      cases this
    · have hge : frame ≤ kf.frame := le_of_not_le hle
      have hsome : (stepNeighbors frame (none, none) kf).2.isSome := by
        simp [stepNeighbors, hge]
      have := foldl_neighbors_snd_isSome frame t _ hsome
      rw [heq] at this
      cases this

/-! C1: the piecewise evaluation contract. -/

lemma get_value_eq (p : AnimationParameter) (frame : ℚ) (hne : p.keyframes ≠ []) :
    p.get_value_at_frame frame =
      match findNeighbors frame p.keyframes with
      | (none, none) => p.default_value
      | (none, some after_kf) => after_kf.value
      | (some before_kf, none) => before_kf.value
      | (some before_kf, some after_kf) =>
          if before_kf.frame = frame then before_kf.value
          else AnimationParameter.interpolate before_kf after_kf frame := by
  unfold AnimationParameter.get_value_at_frame
  rw [if_neg (fun hemp => hne (List.isEmpty_iff.mp hemp))]

lemma findNeighbors_fst_exact {kfs : List Keyframe} (hs : SortedStrict kfs)
    {kf : Keyframe} (hmem : kf ∈ kfs) : (findNeighbors kf.frame kfs).1 = some kf := by
  obtain ⟨s, t, rfl⟩ := List.append_of_mem hmem
  have hs' := List.pairwise_append.mp hs
  have ht : ∀ x ∈ t, ¬ x.frame ≤ kf.frame := by
    intro x hx
    exact not_le.mpr ((List.pairwise_cons.mp hs'.2.1).1 x hx)
  unfold findNeighbors
  rw [List.foldl_append, List.foldl_cons]
  rw [foldl_neighbors_fst_of_none kf.frame t ht _]
  simp [stepNeighbors]

lemma sortedStrict_le_getLast {kfs : List Keyframe} (hs : SortedStrict kfs)
    {kfl : Keyframe} (h : kfs.getLast? = some kfl) :
    ∀ x ∈ kfs, x.frame ≤ kfl.frame := by
  induction kfs with
  | nil => cases h
  | cons a t ih =>
    intro x hx
    cases t with
    | nil =>
      simp at h
      simp at hx
      rw [hx, h]
    | cons b t' =>
      have hlast' : (b :: t').getLast? = some kfl := by
        rw [List.getLast?_cons_cons] at h; exact h
      have hsc := List.pairwise_cons.mp hs
      rcases List.mem_cons.mp hx with rfl | hx'
      · have hklmem : kfl ∈ b :: t' := List.mem_of_getLast?_eq_some hlast'
        exact le_of_lt (hsc.1 kfl hklmem)
      · exact ih hsc.2 hlast' x hx'

/-- C1: `get_value_at_frame` satisfies the piecewise contract: empty
sequence yields the default value; a query equal to a keyframe's frame
yields that keyframe's value exactly; a query before the first keyframe
yields the first keyframe's value; a query after the last keyframe yields
the last keyframe's value. -/
theorem evaluate_piecewise_contract (p : AnimationParameter) (frame : ℚ) :
    (p.keyframes = [] → p.get_value_at_frame frame = p.default_value) ∧
    (SortedStrict p.keyframes →
      ∀ kf ∈ p.keyframes, p.get_value_at_frame kf.frame = kf.value) ∧
    (SortedStrict p.keyframes → ∀ kf0, p.keyframes.head? = some kf0 →
      frame < kf0.frame → p.get_value_at_frame frame = kf0.value) ∧
    (SortedStrict p.keyframes → ∀ kfl, p.keyframes.getLast? = some kfl →
      kfl.frame < frame → p.get_value_at_frame frame = kfl.value) := by
  refine ⟨?_, ?_, ?_, ?_⟩
  · intro h
    unfold AnimationParameter.get_value_at_frame
    rw [if_pos (by simp [h])]
  · intro hs kf hmem
    have hne : p.keyframes ≠ [] := List.ne_nil_of_mem hmem
    rw [get_value_eq p kf.frame hne]
    have hfst := findNeighbors_fst_exact hs hmem
    rcases hfn : findNeighbors kf.frame p.keyframes with ⟨b, a⟩
    rw [hfn] at hfst
    simp only at hfst
    subst hfst
    cases a <;> simp
  · intro hs kf0 hhead hlt
    rcases hkf : p.keyframes with _ | ⟨a, t⟩
    · rw [hkf] at hhead; cases hhead
    · rw [hkf] at hhead
      simp at hhead
      subst hhead
      have hspw : (∀ b ∈ t, a.frame < b.frame) ∧ SortedStrict t :=
        List.pairwise_cons.mp (hkf ▸ hs)
      have hall : ∀ x ∈ p.keyframes, ¬ x.frame ≤ frame := by
        rw [hkf]
        intro x hx
        rcases List.mem_cons.mp hx with rfl | hx'
        · exact not_le.mpr hlt
        · exact not_le.mpr (hlt.trans (hspw.1 x hx'))
      have hfst : (findNeighbors frame p.keyframes).1 = none :=
        foldl_neighbors_fst_of_none frame p.keyframes hall _
      have hsnd : (findNeighbors frame p.keyframes).2 = some a := by
        rw [hkf]
        unfold findNeighbors
        rw [List.foldl_cons]
        have hstep : stepNeighbors frame (none, none) a =
            ((if a.frame ≤ frame then some a else none), some a) := by
          simp [stepNeighbors, le_of_lt hlt]
        rw [hstep]
        exact foldl_neighbors_snd_frozen frame t _ a
      rw [get_value_eq p frame (by rw [hkf]; simp)]
      rcases hfn : findNeighbors frame p.keyframes with ⟨b, aa⟩
      rw [hfn] at hfst hsnd
      simp only at hfst hsnd
      subst hfst
      subst hsnd
      simp
  · intro hs kfl hlast hgt
    have hne : p.keyframes ≠ [] := by
      intro h; rw [h] at hlast; cases hlast
    have hle := sortedStrict_le_getLast hs hlast
    have hfst : (findNeighbors frame p.keyframes).1 = p.keyframes.getLast? :=
      foldl_neighbors_fst_all_le frame p.keyframes
        (fun x hx => le_of_lt (lt_of_le_of_lt (hle x hx) hgt)) _ hne
    have hsnd : (findNeighbors frame p.keyframes).2 = none :=
      foldl_neighbors_snd_of_none frame p.keyframes
        (fun x hx => not_le.mpr (lt_of_le_of_lt (hle x hx) hgt)) _
    rw [get_value_eq p frame hne]
    rcases hfn : findNeighbors frame p.keyframes with ⟨b, a⟩
    rw [hfn] at hfst hsnd
    simp only at hfst hsnd
    rw [hlast] at hfst
    subst hfst
    subst hsnd
    simp

theorem evaluate_piecewise_contract_witness :
    ((⟨"Opacity", 0, 100, 100, "float",
        [⟨0, 0, .linear, false⟩, ⟨30, 100, .easeOut, false⟩], true, "#4CAF50"⟩ :
      AnimationParameter).get_value_at_frame 30 = 100) ∧
    ((⟨"Opacity", 0, 100, 100, "float",
        [⟨0, 0, .linear, false⟩, ⟨30, 100, .easeOut, false⟩], true, "#4CAF50"⟩ :
      AnimationParameter).get_value_at_frame (-5) = 0) ∧
    ((⟨"Opacity", 0, 100, 100, "float",
        [⟨0, 0, .linear, false⟩, ⟨30, 100, .easeOut, false⟩], true, "#4CAF50"⟩ :
      AnimationParameter).get_value_at_frame 1000 = 100) ∧
    ((AnimationParameter.init "Empty" 0 100 42).get_value_at_frame 7 =
      (AnimationParameter.init "Empty" 0 100 42).default_value) := by
  refine ⟨?_, ?_, ?_, ?_⟩
  · exact (evaluate_piecewise_contract
      ⟨"Opacity", 0, 100, 100, "float",
        [⟨0, 0, .linear, false⟩, ⟨30, 100, .easeOut, false⟩], true, "#4CAF50"⟩ 30).2.1
      (by decide) ⟨30, 100, .easeOut, false⟩ (by decide)
  · exact (evaluate_piecewise_contract
      ⟨"Opacity", 0, 100, 100, "float",
        [⟨0, 0, .linear, false⟩, ⟨30, 100, .easeOut, false⟩], true, "#4CAF50"⟩ (-5)).2.2.1
      (by decide) ⟨0, 0, .linear, false⟩ (by decide) (by norm_num)
  · exact (evaluate_piecewise_contract
      ⟨"Opacity", 0, 100, 100, "float",
        [⟨0, 0, .linear, false⟩, ⟨30, 100, .easeOut, false⟩], true, "#4CAF50"⟩ 1000).2.2.2
      (by decide) ⟨30, 100, .easeOut, false⟩ (by decide) (by norm_num)
  · exact (evaluate_piecewise_contract (AnimationParameter.init "Empty" 0 100 42) 7).1 rfl

/-! C9: evaluation stays within the keyframe value range. -/

lemma interpolate_exists_t (b a : Keyframe) (frame : ℚ)
    (hb : b.frame ≤ frame) (hne : b.frame ≠ frame) (ha : frame ≤ a.frame) :
    ∃ t', 0 ≤ t' ∧ t' ≤ 1 ∧
      AnimationParameter.interpolate b a frame = b.value + (a.value - b.value) * t' := by
  have hlt : b.frame < frame := lt_of_le_of_ne hb hne
  have hfr : b.frame < a.frame := lt_of_lt_of_le hlt ha
  have hfne : b.frame ≠ a.frame := ne_of_lt hfr
  have hden : 0 < a.frame - b.frame := sub_pos.mpr hfr
  have ht0 : 0 ≤ (frame - b.frame) / (a.frame - b.frame) :=
    div_nonneg (by linarith) hden.le
  have ht1 : (frame - b.frame) / (a.frame - b.frame) ≤ 1 :=
    (div_le_one hden).mpr (by linarith)
  cases hI : b.interpolation
  case step =>
    refine ⟨0, le_refl 0, by norm_num, ?_⟩
    simp [AnimationParameter.interpolate, hfne, hI]
  case linear =>
    refine ⟨(frame - b.frame) / (a.frame - b.frame), ht0, ht1, ?_⟩
    simp [AnimationParameter.interpolate, hfne, hI]
  case easeIn =>
    refine ⟨((frame - b.frame) / (a.frame - b.frame)) *
      ((frame - b.frame) / (a.frame - b.frame)), by nlinarith, by nlinarith, ?_⟩
    simp [AnimationParameter.interpolate, hfne, hI]
  case easeOut =>
    refine ⟨1 - (1 - (frame - b.frame) / (a.frame - b.frame)) *
      (1 - (frame - b.frame) / (a.frame - b.frame)), by nlinarith, by nlinarith, ?_⟩
    simp [AnimationParameter.interpolate, hfne, hI]
  case easeInOut =>
    by_cases hhalf : (frame - b.frame) / (a.frame - b.frame) < 1/2
    · refine ⟨2 * ((frame - b.frame) / (a.frame - b.frame)) *
        ((frame - b.frame) / (a.frame - b.frame)), by nlinarith, by nlinarith, ?_⟩
      simp [AnimationParameter.interpolate, hfne, hI, hhalf]
      exact fun h' => False.elim (by linarith)
    · refine ⟨1 - 2 * (1 - (frame - b.frame) / (a.frame - b.frame)) *
        (1 - (frame - b.frame) / (a.frame - b.frame)), by nlinarith, by nlinarith, ?_⟩
      simp [AnimationParameter.interpolate, hfne, hI, hhalf]
      exact fun h' => False.elim (by linarith)
  case bezier =>
    refine ⟨((frame - b.frame) / (a.frame - b.frame)) *
        ((frame - b.frame) / (a.frame - b.frame)) *
        (3 - 2 * ((frame - b.frame) / (a.frame - b.frame))),
      by nlinarith, by nlinarith [sq_nonneg (1 - (frame - b.frame) / (a.frame - b.frame))], ?_⟩
    simp [AnimationParameter.interpolate, hfne, hI]

lemma value_between {bv av m M t' : ℚ} (hbm : m ≤ bv) (hbM : bv ≤ M)
    (ham : m ≤ av) (haM : av ≤ M) (h0 : 0 ≤ t') (h1 : t' ≤ 1) :
    m ≤ bv + (av - bv) * t' ∧ bv + (av - bv) * t' ≤ M := by
  constructor <;> nlinarith

/-- C9: with at least one keyframe, `get_value_at_frame` always returns a
value inside any interval containing all keyframe values (so inside
`[min, max]` of the stored values); the default value is never used.  This
holds because every interpolation mode remaps `t ∈ (0,1)` into `[0,1]`. -/
theorem evaluate_bounded_by_keyframe_values (p : AnimationParameter)
    (frame m M : ℚ) (hne : p.keyframes ≠ [])
    (hb : ∀ kf ∈ p.keyframes, m ≤ kf.value ∧ kf.value ≤ M) :
    m ≤ p.get_value_at_frame frame ∧ p.get_value_at_frame frame ≤ M := by
  rw [get_value_eq p frame hne]
  rcases hfn : findNeighbors frame p.keyframes with ⟨_ | b, _ | a⟩
  · exact absurd hfn (findNeighbors_ne_none_none frame p.keyframes hne)
  · have hmem : a ∈ p.keyframes ∧ frame ≤ a.frame := by
      have h2 : (findNeighbors frame p.keyframes).2 = some a := by rw [hfn]
      rcases foldl_neighbors_snd_mem frame p.keyframes (none, none) a h2 with h | h
      · simp at h
      · exact h
    show m ≤ a.value ∧ a.value ≤ M
    exact hb a hmem.1
  · have hmem : b ∈ p.keyframes ∧ b.frame ≤ frame := by
      have h1 : (findNeighbors frame p.keyframes).1 = some b := by rw [hfn]
      rcases foldl_neighbors_fst_mem frame p.keyframes (none, none) b h1 with h | h
      · simp at h
      · exact h
    show m ≤ b.value ∧ b.value ≤ M
    exact hb b hmem.1
  · have hmb : b ∈ p.keyframes ∧ b.frame ≤ frame := by
      have h1 : (findNeighbors frame p.keyframes).1 = some b := by rw [hfn]
      rcases foldl_neighbors_fst_mem frame p.keyframes (none, none) b h1 with h | h
      · simp at h
      · exact h
    have hma : a ∈ p.keyframes ∧ frame ≤ a.frame := by
      have h2 : (findNeighbors frame p.keyframes).2 = some a := by rw [hfn]
      rcases foldl_neighbors_snd_mem frame p.keyframes (none, none) a h2 with h | h
      · simp at h
      · exact h
    show m ≤ (if b.frame = frame then b.value
        else AnimationParameter.interpolate b a frame) ∧
      (if b.frame = frame then b.value
        else AnimationParameter.interpolate b a frame) ≤ M
    by_cases hbf : b.frame = frame
    · rw [if_pos hbf]
      exact hb b hmb.1
    · rw [if_neg hbf]
      obtain ⟨t', h0, h1, heq⟩ := interpolate_exists_t b a frame hmb.2 hbf hma.2
      rw [heq]
      exact value_between (hb b hmb.1).1 (hb b hmb.1).2 (hb a hma.1).1 (hb a hma.1).2 h0 h1

theorem evaluate_bounded_by_keyframe_values_witness :
    (0 : ℚ) ≤ (⟨"Opacity", 0, 100, 100, "float",
        [⟨0, 0, .linear, false⟩, ⟨30, 100, .easeOut, false⟩], true, "#4CAF50"⟩ :
      AnimationParameter).get_value_at_frame 15 ∧
    (⟨"Opacity", 0, 100, 100, "float",
        [⟨0, 0, .linear, false⟩, ⟨30, 100, .easeOut, false⟩], true, "#4CAF50"⟩ :
      AnimationParameter).get_value_at_frame 15 ≤ 100 :=
  evaluate_bounded_by_keyframe_values
    ⟨"Opacity", 0, 100, 100, "float",
      [⟨0, 0, .linear, false⟩, ⟨30, 100, .easeOut, false⟩], true, "#4CAF50"⟩
    15 0 100 (by decide) (by decide)

/-! C10: timecode decomposition. -/

/-- C10: `frame_to_time` is a pure function of frame and frame rate whose
four fields decompose `frame / frame_rate` into whole hours, minutes and
seconds (H*3600 + M*60 + S = whole seconds, with M and S in [0,60)), and
whose frame field is `frame mod frame_rate` truncated to an integer, for
every frame ≥ 0 and frame rate > 0. -/
theorem frame_to_time_decomposition (frame frame_rate : ℚ)
    (h0 : 0 ≤ frame) (h1 : 0 < frame_rate) :
    (TimelineApp.frame_to_time frame frame_rate).1 * 3600 +
      (TimelineApp.frame_to_time frame frame_rate).2.1 * 60 +
      (TimelineApp.frame_to_time frame frame_rate).2.2.1 = ⌊frame / frame_rate⌋ ∧
    0 ≤ (TimelineApp.frame_to_time frame frame_rate).1 ∧
    0 ≤ (TimelineApp.frame_to_time frame frame_rate).2.1 ∧
    (TimelineApp.frame_to_time frame frame_rate).2.1 < 60 ∧
    0 ≤ (TimelineApp.frame_to_time frame frame_rate).2.2.1 ∧
    (TimelineApp.frame_to_time frame frame_rate).2.2.1 < 60 ∧
    (TimelineApp.frame_to_time frame frame_rate).2.2.2 =
      ⌊frame - frame_rate * ⌊frame / frame_rate⌋⌋ := by
  simp only [TimelineApp.frame_to_time]
  set ts := frame / frame_rate with hts
  have htsnn : 0 ≤ ts := div_nonneg h0 h1.le
  have hH : pyTrunc (pyFloorDiv ts 3600) = ⌊ts / 3600⌋ := by
    have hnn : (0 : ℚ) ≤ ((⌊ts / 3600⌋ : ℤ) : ℚ) := by
      exact_mod_cast Int.floor_nonneg.mpr (by positivity)
    unfold pyTrunc pyFloorDiv
    rw [if_pos hnn]
    exact Int.floor_intCast _
  have hHnn : 0 ≤ ⌊ts / 3600⌋ := Int.floor_nonneg.mpr (by positivity)
  have hr0 : 0 ≤ pyMod ts 3600 := by
    have h := Int.floor_le (ts / 3600)
    have e : 3600 * (ts / 3600) = ts := by ring
    unfold pyMod
    nlinarith
  have hr1 : pyMod ts 3600 < 3600 := by
    have h := Int.lt_floor_add_one (ts / 3600)
    have e : 3600 * (ts / 3600) = ts := by ring
    unfold pyMod
    nlinarith
  have hM : pyTrunc (pyFloorDiv (pyMod ts 3600) 60) = ⌊pyMod ts 3600 / 60⌋ := by
    have hnn : (0 : ℚ) ≤ ((⌊pyMod ts 3600 / 60⌋ : ℤ) : ℚ) := by
      exact_mod_cast Int.floor_nonneg.mpr (div_nonneg hr0 (by norm_num))
    unfold pyTrunc pyFloorDiv
    rw [if_pos hnn]
    exact Int.floor_intCast _
  have hM0 : 0 ≤ ⌊pyMod ts 3600 / 60⌋ :=
    Int.floor_nonneg.mpr (div_nonneg hr0 (by norm_num))
  have hM1 : ⌊pyMod ts 3600 / 60⌋ < 60 := by
    rw [Int.floor_lt]
    push_cast
    rw [div_lt_iff (by norm_num : (0 : ℚ) < 60)]
    linarith
  have hs0 : 0 ≤ pyMod ts 60 := by
    have h := Int.floor_le (ts / 60)
    have e : 60 * (ts / 60) = ts := by ring
    unfold pyMod
    nlinarith
  have hs1 : pyMod ts 60 < 60 := by
    have h := Int.lt_floor_add_one (ts / 60)
    have e : 60 * (ts / 60) = ts := by ring
    unfold pyMod
    nlinarith
  have hS : pyTrunc (pyMod ts 60) = ⌊pyMod ts 60⌋ := by
    unfold pyTrunc
    rw [if_pos hs0]
  have hS0 : 0 ≤ ⌊pyMod ts 60⌋ := Int.floor_nonneg.mpr hs0
  have hS1 : ⌊pyMod ts 60⌋ < 60 := by
    rw [Int.floor_lt]
    exact_mod_cast hs1
  have hMeq : ⌊pyMod ts 3600 / 60⌋ = ⌊ts / 60⌋ - 60 * ⌊ts / 3600⌋ := by
    have e : pyMod ts 3600 / 60 = ts / 60 - ((60 * ⌊ts / 3600⌋ : ℤ) : ℚ) := by
      unfold pyMod
      push_cast
      ring
    rw [e, Int.floor_sub_int]
  have hSeq : ⌊pyMod ts 60⌋ = ⌊ts⌋ - 60 * ⌊ts / 60⌋ := by
    have e : pyMod ts 60 = ts - ((60 * ⌊ts / 60⌋ : ℤ) : ℚ) := by
      unfold pyMod
      push_cast
      ring
    rw [e, Int.floor_sub_int]
  have hFFnn : 0 ≤ pyMod frame frame_rate := by
    have h := Int.floor_le (frame / frame_rate)
    have h2 := mul_le_mul_of_nonneg_left h h1.le
    have e : frame_rate * (frame / frame_rate) = frame := by field_simp
    unfold pyMod
    linarith
  have hFF : pyTrunc (pyMod frame frame_rate) =
      ⌊frame - frame_rate * ⌊frame / frame_rate⌋⌋ := by
    unfold pyTrunc
    rw [if_pos hFFnn]
    unfold pyMod
    rfl
  rw [hH, hM, hS, hFF, hMeq, hSeq]
  refine ⟨by ring, hHnn, by omega, by omega, by omega, by omega, rfl⟩

theorem frame_to_time_decomposition_witness :
    (TimelineApp.frame_to_time 61 30).1 * 3600 +
      (TimelineApp.frame_to_time 61 30).2.1 * 60 +
      (TimelineApp.frame_to_time 61 30).2.2.1 = ⌊(61 : ℚ) / 30⌋ ∧
    (TimelineApp.frame_to_time 61 30).2.2.2 =
      ⌊(61 : ℚ) - 30 * ⌊(61 : ℚ) / 30⌋⌋ := by
  have h := frame_to_time_decomposition 61 30 (by norm_num) (by norm_num)
  exact ⟨h.1, h.2.2.2.2.2.2⟩

/-! C3: save/load round trip. -/

lemma findInterpolation_value (i : InterpolationType) :
    findInterpolation i.value = some i := by
  cases i <;> rfl

lemma add_keyframe_append (p : AnimationParameter) (f v : ℚ) (m : InterpolationType)
    (hs : p.keyframes.Pairwise (fun a b => a.frame ≤ b.frame))
    (hlt : ∀ kf ∈ p.keyframes, kf.frame < f) :
    p.add_keyframe f v m =
      { p with keyframes := p.keyframes ++ [Keyframe.init f v m] } := by
  have hfilter : p.keyframes.filter (fun kf => kf.frame ≠ f) = p.keyframes :=
    List.filter_eq_self.mpr (fun kf hkf => by
      simp only [decide_eq_true_eq]
      exact ne_of_lt (hlt kf hkf))
  have hsorted : (p.keyframes ++ [Keyframe.init f v m]).Pairwise
      (fun a b => a.frame ≤ b.frame) := by
    rw [List.pairwise_append]
    refine ⟨hs, List.pairwise_singleton _ _, ?_⟩
    intro a ha b hb
    simp only [List.mem_singleton] at hb
    subst hb
    exact le_of_lt (hlt a ha)
  unfold AnimationParameter.add_keyframe
  rw [hfilter, sortByFrame_eq_of_sorted hsorted]

lemma buildKeyframes_append (kfs : List Keyframe) :
    ∀ p : AnimationParameter,
      ((p.keyframes ++ kfs).map Keyframe.frame).Pairwise (· < ·) →
      buildKeyframes p (kfs.map (fun kf => (kf.frame, kf.value, kf.interpolation.value))) =
        some { p with keyframes := p.keyframes ++ kfs.map rebuildKeyframe } := by
  induction kfs with
  | nil =>
    intro p hp
    simp [buildKeyframes]
  | cons kf t ih =>
    intro p hp
    have hp' := hp
    rw [List.map_append, List.pairwise_append] at hp'
    have hle : p.keyframes.Pairwise (fun a b => a.frame ≤ b.frame) :=
      (List.pairwise_map.mp hp'.1).imp le_of_lt
    have hlt : ∀ x ∈ p.keyframes, x.frame < kf.frame := fun x hx =>
      hp'.2.2 x.frame (List.mem_map_of_mem _ hx) kf.frame (by simp)
    simp only [List.map_cons, buildKeyframes, findInterpolation_value]
    rw [add_keyframe_append p kf.frame kf.value kf.interpolation hle hlt]
    have hframes : (({ p with keyframes :=
          p.keyframes ++ [Keyframe.init kf.frame kf.value kf.interpolation] }
            : AnimationParameter).keyframes ++ t).map Keyframe.frame =
        (p.keyframes ++ kf :: t).map Keyframe.frame := by
      simp [Keyframe.init, List.append_assoc]
    rw [ih _ (by rw [hframes]; exact hp)]
    simp [rebuildKeyframe, List.append_assoc]

lemma buildParam_roundtrip (name : String) (p : AnimationParameter)
    (hs : SortedStrict p.keyframes) :
    buildParam name (savedOfParameter p) =
      some { name := name, min_value := p.min_value, max_value := p.max_value,
             default_value := p.default_value, param_type := "float",
             keyframes := p.keyframes.map rebuildKeyframe, visible := true,
             color := "#4CAF50" } := by
  have h := buildKeyframes_append p.keyframes
    (AnimationParameter.init name p.min_value p.max_value p.default_value)
    (by simpa [AnimationParameter.init] using List.pairwise_map.mpr hs)
  unfold buildParam savedOfParameter
  simpa [AnimationParameter.init] using h

lemma dictInsert_of_not_mem (store : ParameterStore) (k : String)
    (v : AnimationParameter) (h : k ∉ store.map Prod.fst) :
    dictInsert store k v = store ++ [(k, v)] := by
  have hany : store.any (fun np => np.1 == k) = false := by
    rw [List.any_eq_false]
    intro np hnp he
    exact h (List.mem_map.mpr ⟨np, hnp, eq_of_beq he⟩)
  unfold dictInsert
  rw [if_neg (by rw [hany]; exact Bool.false_ne_true)]

lemma loadParams_roundtrip (ps : List (String × AnimationParameter)) :
    ∀ acc : ParameterStore,
      (ps.map Prod.fst).Nodup →
      (∀ n ∈ ps.map Prod.fst, n ∉ acc.map Prod.fst) →
      (∀ np ∈ ps, SortedStrict np.2.keyframes) →
      loadParams (ps.map (fun np => (np.1, savedOfParameter np.2))) acc =
        (acc ++ rebuiltStore ps acc.length, true) := by
  induction ps with
  | nil =>
    intro acc _ _ _
    simp [loadParams, rebuiltStore]
  | cons np rest ih =>
    intro acc hnd hdisj hsort
    obtain ⟨n, p⟩ := np
    have hnd0 : (n :: rest.map Prod.fst).Nodup := by simpa using hnd
    have hnd' := List.nodup_cons.mp hnd0
    simp only [List.map_cons, loadParams,
      buildParam_roundtrip n p (hsort (n, p) (List.mem_cons_self _ _))]
    rw [dictInsert_of_not_mem acc n _ (hdisj n (by simp))]
    rw [ih (acc ++ [(n, _)]) hnd'.2 ?_ ?_]
    · simp only [rebuiltStore, rebuildParameter, List.length_append,
        List.length_singleton, List.append_assoc, List.singleton_append,
        List.cons_append, List.nil_append]
    · intro n' hn' hmem
      rcases List.mem_map.mp hmem with ⟨q, hq, hqe⟩
      rcases List.mem_append.mp hq with hq1 | hq1
      · exact hdisj n' (by simp [hn']) (hqe ▸ List.mem_map_of_mem _ hq1)
      · simp only [List.mem_singleton] at hq1
        subst hq1
        simp only at hqe
        exact hnd'.1 (hqe ▸ hn')
    · intro q hq
      exact hsort q (List.mem_cons_of_mem _ hq)

lemma rebuiltStore_map_fst (ps : List (String × AnimationParameter)) :
    ∀ i, (rebuiltStore ps i).map Prod.fst = ps.map Prod.fst := by
  induction ps with
  | nil => intro i; rfl
  | cons np rest ih =>
    intro i
    obtain ⟨n, p⟩ := np
    simp [rebuiltStore, ih]

lemma rebuiltStore_map_fields (ps : List (String × AnimationParameter)) :
    ∀ i, (rebuiltStore ps i).map
        (fun np => (np.2.min_value, np.2.max_value, np.2.default_value)) =
      ps.map (fun np => (np.2.min_value, np.2.max_value, np.2.default_value)) := by
  induction ps with
  | nil => intro i; rfl
  | cons np rest ih =>
    intro i
    obtain ⟨n, p⟩ := np
    simp [rebuiltStore, rebuildParameter, ih]

lemma rebuiltStore_map_triples (ps : List (String × AnimationParameter)) :
    ∀ i, (rebuiltStore ps i).map
        (fun np => np.2.keyframes.map (fun kf => (kf.frame, kf.value, kf.interpolation))) =
      ps.map
        (fun np => np.2.keyframes.map (fun kf => (kf.frame, kf.value, kf.interpolation))) := by
  induction ps with
  | nil => intro i; rfl
  | cons np rest ih =>
    intro i
    obtain ⟨n, p⟩ := np
    simp [rebuiltStore, rebuildParameter, ih, List.map_map, rebuildKeyframe,
      Keyframe.init, Function.comp]

lemma rebuiltStore_selected (ps : List (String × AnimationParameter)) :
    ∀ i, ∀ np ∈ rebuiltStore ps i, ∀ kf ∈ np.2.keyframes, kf.selected = false := by
  induction ps with
  | nil => intro i np hnp; cases hnp
  | cons q rest ih =>
    intro i np hnp kf hkf
    obtain ⟨n, p⟩ := q
    rcases List.mem_cons.mp hnp with rfl | hnp'
    · simp only [rebuildParameter] at hkf
      rcases List.mem_map.mp hkf with ⟨x, _, hxe⟩
      rw [← hxe]
      rfl
    · exact ih (i + 1) np hnp' kf hkf

lemma rebuiltStore_colors (ps : List (String × AnimationParameter)) :
    ∀ i, (rebuiltStore ps i).map (fun np => np.2.color) =
      (List.range ps.length).map
        (fun j => parameter_colors.getD ((i + j) % parameter_colors.length) "#4CAF50") := by
  induction ps with
  | nil => intro i; rfl
  | cons q rest ih =>
    intro i
    obtain ⟨n, p⟩ := q
    simp only [rebuiltStore, rebuildParameter, List.map_cons, List.length_cons,
      List.range_succ_eq_map, List.map_map]
    rw [ih (i + 1)]
    refine congrArg₂ _ (by simp) ?_
    apply List.map_congr_left
    intro j hj
    simp only [Function.comp]
    congr 2
    omega

/-- C3: `load(save(D))` succeeds and reproduces D's frame rate, duration,
markers, clips, parameter names in order, each parameter's range and
default, and every keyframe `(frame, value, mode)` triple in sequence
order; the transient `selected` flag is false on every loaded keyframe and
display colors are re-derived from the palette by store-insertion order. -/
theorem load_save_roundtrip (s sp : AppState)
    (hnodup : (s.animation_parameters.map Prod.fst).Nodup)
    (hsorted : ∀ np ∈ s.animation_parameters, SortedStrict np.2.keyframes) :
    (TimelineApp.load_timeline sp (TimelineApp.save_timeline s)).2 = none ∧
    (TimelineApp.load_timeline sp (TimelineApp.save_timeline s)).1.current_frame_rate =
      s.current_frame_rate ∧
    (TimelineApp.load_timeline sp (TimelineApp.save_timeline s)).1.timeline_duration =
      s.timeline_duration ∧
    (TimelineApp.load_timeline sp (TimelineApp.save_timeline s)).1.markers = s.markers ∧
    (TimelineApp.load_timeline sp (TimelineApp.save_timeline s)).1.clips = s.clips ∧
    (TimelineApp.load_timeline sp
        (TimelineApp.save_timeline s)).1.animation_parameters.map Prod.fst =
      s.animation_parameters.map Prod.fst ∧
    (TimelineApp.load_timeline sp
        (TimelineApp.save_timeline s)).1.animation_parameters.map
        (fun np => (np.2.min_value, np.2.max_value, np.2.default_value)) =
      s.animation_parameters.map
        (fun np => (np.2.min_value, np.2.max_value, np.2.default_value)) ∧
    (TimelineApp.load_timeline sp
        (TimelineApp.save_timeline s)).1.animation_parameters.map
        (fun np => np.2.keyframes.map (fun kf => (kf.frame, kf.value, kf.interpolation))) =
      s.animation_parameters.map
        (fun np => np.2.keyframes.map (fun kf => (kf.frame, kf.value, kf.interpolation))) ∧
    (∀ np ∈ (TimelineApp.load_timeline sp
        (TimelineApp.save_timeline s)).1.animation_parameters,
      ∀ kf ∈ np.2.keyframes, kf.selected = false) ∧
    (TimelineApp.load_timeline sp
        (TimelineApp.save_timeline s)).1.animation_parameters.map
        (fun np => np.2.color) =
      (List.range s.animation_parameters.length).map
        (fun j => parameter_colors.getD (j % parameter_colors.length) "#4CAF50") := by
  have hload : loadParams (TimelineApp.save_timeline s).animation_parameters [] =
      (rebuiltStore s.animation_parameters 0, true) := by
    show loadParams
        (s.animation_parameters.map (fun np => (np.1, savedOfParameter np.2))) [] = _
    rw [loadParams_roundtrip s.animation_parameters [] hnodup (by simp) hsorted]
    simp
  simp only [TimelineApp.load_timeline, hload]
  refine ⟨by trivial, by trivial, by trivial, by trivial, by trivial,
    rebuiltStore_map_fst _ 0, rebuiltStore_map_fields _ 0,
    rebuiltStore_map_triples _ 0, rebuiltStore_selected _ 0, ?_⟩
  simpa using rebuiltStore_colors s.animation_parameters 0

theorem load_save_roundtrip_witness :
    ((demoState.animation_parameters.map Prod.fst).Nodup ∧
      ∀ np ∈ demoState.animation_parameters, SortedStrict np.2.keyframes) ∧
    (TimelineApp.load_timeline demoPrior (TimelineApp.save_timeline demoState)).2 = none ∧
    (TimelineApp.load_timeline demoPrior
        (TimelineApp.save_timeline demoState)).1.current_frame_rate =
      demoState.current_frame_rate ∧
    (TimelineApp.load_timeline demoPrior
        (TimelineApp.save_timeline demoState)).1.animation_parameters.map
        (fun np => np.2.keyframes.map (fun kf => (kf.frame, kf.value, kf.interpolation))) =
      demoState.animation_parameters.map
        (fun np => np.2.keyframes.map (fun kf => (kf.frame, kf.value, kf.interpolation))) := by
  have h := load_save_roundtrip demoState demoPrior (by decide) (by decide)
  exact ⟨⟨by decide, by decide⟩, h.1, h.2.1, h.2.2.2.2.2.2.2.1⟩

/-! C4: failed loads are not atomic. -/

/-- C4 counterexample: loading a document whose keyframe interpolation name
is `"Quadratic"` reports a failure, but the previously loaded in-memory
document does not remain unchanged — its frame rate is already overwritten
(24 instead of 30), so the whole state differs. -/
theorem load_unknown_interp_not_atomic :
    (TimelineApp.load_timeline demoPrior badData).2 = some .unknownInterpolation ∧
    (TimelineApp.load_timeline demoPrior badData).1.current_frame_rate = 24 ∧
    demoPrior.current_frame_rate = 30 ∧
    (TimelineApp.load_timeline demoPrior badData).1 ≠ demoPrior := by decide

lemma buildKeyframes_eq_none_iff (ts : List (ℚ × ℚ × String)) :
    ∀ p, (buildKeyframes p ts = none ↔
      ts.any (fun t => (findInterpolation t.2.2).isNone) = true) := by
  induction ts with
  | nil => intro p; simp [buildKeyframes]
  | cons t rest ih =>
    intro p
    obtain ⟨f, v, s⟩ := t
    simp only [buildKeyframes, List.any_cons]
    cases hF : findInterpolation s with
    | none => simp [hF]
    | some m => simp [hF, ih]

lemma buildParam_eq_none_iff (name : String) (pd : SavedParameter) :
    buildParam name pd = none ↔ hasUnknownInterp pd = true :=
  buildKeyframes_eq_none_iff pd.keyframes
    (AnimationParameter.init name pd.min_value pd.max_value pd.default_value)

lemma loadParams_fail (ps : List (String × SavedParameter)) :
    ∀ acc : ParameterStore,
      (∀ n ∈ ps.map Prod.fst, n ∉ acc.map Prod.fst) →
      (ps.map Prod.fst).Nodup →
      ps.any (fun np => hasUnknownInterp np.2) = true →
      (loadParams ps acc).2 = false ∧
      (loadParams ps acc).1.map Prod.fst =
        acc.map Prod.fst ++
          (ps.takeWhile (fun np => !hasUnknownInterp np.2)).map Prod.fst := by
  induction ps with
  | nil => intro acc _ _ hbad; simp at hbad
  | cons np rest ih =>
    intro acc hdisj hnd hbad
    obtain ⟨n, pd⟩ := np
    cases hU : hasUnknownInterp pd with
    | true =>
      have hnone : buildParam n pd = none := (buildParam_eq_none_iff n pd).mpr hU
      simp only [loadParams, hnone]
      exact ⟨by trivial, by simp [List.takeWhile_cons, hU]⟩
    | false =>
      have hsome : buildParam n pd ≠ none := by
        rw [Ne, buildParam_eq_none_iff, hU]
        exact Bool.false_ne_true
      obtain ⟨param, hparam⟩ := Option.ne_none_iff_exists'.mp hsome
      have hbad' : rest.any (fun np => hasUnknownInterp np.2) = true := by
        simpa [List.any_cons, hU] using hbad
      have hnd0 : (n :: rest.map Prod.fst).Nodup := by simpa using hnd
      have hnd' := List.nodup_cons.mp hnd0
      simp only [loadParams, hparam]
      rw [dictInsert_of_not_mem acc n _ (hdisj n (by simp))]
      set colored : AnimationParameter := { param with color := parameter_colors.getD (acc.length % parameter_colors.length) "#4CAF50" } with hcol
      have hdisj2 : ∀ n' ∈ rest.map Prod.fst,
          n' ∉ ((acc ++ [(n, colored)] : ParameterStore)).map Prod.fst := by
        intro n' hn' hmem
        rcases List.mem_map.mp hmem with ⟨q, hq, hqe⟩
        rcases List.mem_append.mp hq with hq1 | hq1
        · exact hdisj n' (by simp [hn']) (hqe ▸ List.mem_map_of_mem _ hq1)
        · simp only [List.mem_singleton] at hq1
          subst hq1
          simp only at hqe
          exact hnd'.1 (hqe ▸ hn')
      have hrec := ih (acc ++ [(n, colored)]) hdisj2 hnd'.2 hbad'
      refine ⟨hrec.1, ?_⟩
      rw [hrec.2]
      simp [List.takeWhile_cons, hU, List.append_assoc]

/-- C4 amended: on a document containing an interpolation name outside the
enumeration, `load_timeline` reports the failure, but the in-memory state
is partially mutated rather than unchanged: frame rate, duration, markers
and clips are already overwritten with the file's values, and the parameter
store has been cleared and repopulated only with the parameters that were
fully processed before the failing one. -/
theorem load_unknown_interp_partial_mutation (s : AppState) (d : TimelineData)
    (hnd : (d.animation_parameters.map Prod.fst).Nodup)
    (hbad : d.animation_parameters.any (fun np => hasUnknownInterp np.2) = true) :
    (TimelineApp.load_timeline s d).2 = some .unknownInterpolation ∧
    (TimelineApp.load_timeline s d).1.current_frame_rate = d.frame_rate ∧
    (TimelineApp.load_timeline s d).1.timeline_duration = d.duration ∧
    (TimelineApp.load_timeline s d).1.markers = d.markers ∧
    (TimelineApp.load_timeline s d).1.clips = d.clips ∧
    (TimelineApp.load_timeline s d).1.animation_parameters.map Prod.fst =
      (d.animation_parameters.takeWhile
        (fun np => !hasUnknownInterp np.2)).map Prod.fst := by
  simp only [TimelineApp.load_timeline]
  rcases hlp : loadParams d.animation_parameters [] with ⟨params, ok⟩
  have hfail := loadParams_fail d.animation_parameters [] (by simp) hnd hbad
  rw [hlp] at hfail
  obtain ⟨hok, hnames⟩ := hfail
  simp only at hok hnames
  simp only [List.map_nil, List.nil_append] at hnames
  subst hok
  exact ⟨rfl, rfl, rfl, rfl, rfl, hnames⟩

theorem load_unknown_interp_partial_mutation_witness :
    (TimelineApp.load_timeline demoPrior badData).2 = some .unknownInterpolation ∧
    (TimelineApp.load_timeline demoPrior badData).1.current_frame_rate =
      badData.frame_rate := by
  have h := load_unknown_interp_partial_mutation demoPrior badData
    (by decide) (by decide)
  exact ⟨h.1, h.2.1⟩

/-! C8: rename through `edit_parameter`. -/

/-- C8 counterexample: renaming "A" to "B" while "B" exists does not fail
and does not leave the store unchanged — the parameter previously stored
under "B" is silently overwritten and the store shrinks to one entry. -/
theorem rename_overwrites_existing :
    TimelineApp.edit_parameter demoStoreAB "A" "B" 0 100 0 =
      some [("B", AnimationParameter.init "B" 0 100 0)] ∧
    [("B", AnimationParameter.init "B" 0 100 0)] ≠ demoStoreAB := by decide

lemma lookup_map_replace (l : ParameterStore) (k : String) (v : AnimationParameter)
    (h : l.any (fun np => np.1 == k) = true) :
    (l.map (fun np => if np.1 = k then (k, v) else np)).lookup k = some v := by
  induction l with
  | nil => simp at h
  | cons q t ih =>
    obtain ⟨q1, q2⟩ := q
    by_cases hq : q1 = k
    · subst hq
      simp [List.lookup_cons]
    · have h' : t.any (fun np => np.1 == k) = true := by
        simpa [List.any_cons, hq] using h
      have hb : (k == q1) = false := beq_eq_false_iff_ne.mpr (fun he => hq he.symm)
      simp only [List.map_cons, if_neg hq]
      rw [List.lookup_cons, hb]
      exact ih h'

lemma lookup_map_replace_other (l : ParameterStore) (k k' : String)
    (v : AnimationParameter) (hne : k' ≠ k) :
    (l.map (fun np => if np.1 = k then (k, v) else np)).lookup k' = l.lookup k' := by
  induction l with
  | nil => rfl
  | cons q t ih =>
    obtain ⟨q1, q2⟩ := q
    by_cases hq : q1 = k
    · have hb : (k' == k) = false := beq_eq_false_iff_ne.mpr hne
      have hb2 : (k' == q1) = false := beq_eq_false_iff_ne.mpr (fun he => hne (he.trans hq))
      simp only [List.map_cons]
      rw [if_pos (show (q1, q2).1 = k from hq)]
      rw [List.lookup_cons, List.lookup_cons, hb, hb2]
      exact ih
    · simp only [List.map_cons, if_neg hq]
      rw [List.lookup_cons, List.lookup_cons]
      cases hbq : k' == q1
      · exact ih
      · rfl

lemma lookup_append_single_self (l : ParameterStore) (k : String)
    (v : AnimationParameter) (h : k ∉ l.map Prod.fst) :
    ((l ++ [(k, v)] : ParameterStore)).lookup k = some v := by
  induction l with
  | nil => simp [List.lookup_cons]
  | cons q t ih =>
    obtain ⟨q1, q2⟩ := q
    have hq : q1 ≠ k := by
      intro he
      exact h (by simp [he])
    have hb : (k == q1) = false := beq_eq_false_iff_ne.mpr (fun he => hq he.symm)
    have h' : k ∉ t.map Prod.fst := fun hm => h (List.mem_cons_of_mem _ hm)
    rw [List.cons_append, List.lookup_cons, hb]
    exact ih h'

lemma lookup_append_single_other (l : ParameterStore) (k k' : String)
    (v : AnimationParameter) (hne : k' ≠ k) :
    ((l ++ [(k, v)] : ParameterStore)).lookup k' = l.lookup k' := by
  induction l with
  | nil =>
    have hb : (k' == k) = false := beq_eq_false_iff_ne.mpr hne
    simp [List.lookup_cons, hb]
  | cons q t ih =>
    obtain ⟨q1, q2⟩ := q
    rw [List.cons_append, List.lookup_cons, List.lookup_cons]
    cases hbq : k' == q1
    · exact ih
    · rfl

lemma dictInsert_lookup_self (l : ParameterStore) (k : String)
    (v : AnimationParameter) : (dictInsert l k v).lookup k = some v := by
  unfold dictInsert
  by_cases h : l.any (fun np => np.1 == k) = true
  · rw [if_pos h]
    exact lookup_map_replace l k v h
  · rw [if_neg h]
    have hnm : k ∉ l.map Prod.fst := by
      intro hmem
      apply h
      rcases List.mem_map.mp hmem with ⟨np, hnp, he⟩
      exact List.any_eq_true.mpr ⟨np, hnp, by simp [he]⟩
    exact lookup_append_single_self l k v hnm

lemma dictInsert_lookup_other (l : ParameterStore) (k k' : String)
    (v : AnimationParameter) (hne : k' ≠ k) :
    (dictInsert l k v).lookup k' = l.lookup k' := by
  unfold dictInsert
  by_cases h : l.any (fun np => np.1 == k) = true
  · rw [if_pos h]
    exact lookup_map_replace_other l k k' v hne
  · rw [if_neg h]
    exact lookup_append_single_other l k k' v hne

lemma dictErase_lookup_self (l : ParameterStore) (k : String) :
    (dictErase l k).lookup k = none := by
  induction l with
  | nil => rfl
  | cons q t ih =>
    obtain ⟨q1, q2⟩ := q
    by_cases hq : q1 = k
    · simp only [dictErase, List.filter_cons, decide_eq_true_eq] at ih ⊢
      rw [if_neg (not_not_intro hq)]
      exact ih
    · have hb : (k == q1) = false := beq_eq_false_iff_ne.mpr (fun he => hq he.symm)
      simp only [dictErase, List.filter_cons, decide_eq_true_eq] at ih ⊢
      rw [if_pos hq, List.lookup_cons, hb]
      exact ih

lemma mem_keys_of_lookup (l : ParameterStore) (k : String) (v : AnimationParameter)
    (h : l.lookup k = some v) : k ∈ l.map Prod.fst := by
  induction l with
  | nil => cases h
  | cons q t ih =>
    obtain ⟨q1, q2⟩ := q
    by_cases hq : q1 = k
    · exact List.mem_map.mpr ⟨(q1, q2), List.mem_cons_self _ _, hq⟩
    · have hb : (k == q1) = false := beq_eq_false_iff_ne.mpr (fun he => hq he.symm)
      rw [List.lookup_cons, hb] at h
      exact List.mem_cons_of_mem _ (ih h)

lemma dictErase_length (l : ParameterStore) (k : String)
    (hnd : (l.map Prod.fst).Nodup) (hmem : k ∈ l.map Prod.fst) :
    (dictErase l k).length + 1 = l.length := by
  induction l with
  | nil => cases hmem
  | cons q t ih =>
    obtain ⟨q1, q2⟩ := q
    have hnd0 : (q1 :: t.map Prod.fst).Nodup := by simpa using hnd
    have hnd' := List.nodup_cons.mp hnd0
    by_cases hq : q1 = k
    · have ht : t.filter (fun np => decide (np.1 ≠ k)) = t :=
        List.filter_eq_self.mpr (fun np hnp => by
          simp only [decide_eq_true_eq]
          intro he
          exact hnd'.1 (hq ▸ he ▸ List.mem_map_of_mem _ hnp))
      simp only [dictErase, List.filter_cons, decide_eq_true_eq]
      rw [if_neg (not_not_intro hq)]
      simp only [dictErase] at ht ⊢
      rw [ht]
      simp
    · have hmem' : k ∈ t.map Prod.fst := by
        rw [List.map_cons] at hmem
        rcases List.mem_cons.mp hmem with he | hm
        · exact absurd he.symm hq
        · exact hm
      have hrec := ih hnd'.2 hmem'
      simp only [dictErase, List.filter_cons, decide_eq_true_eq] at hrec ⊢
      rw [if_pos hq]
      simp only [List.length_cons]
      omega

lemma dictErase_any_of_ne (l : ParameterStore) (old new : String)
    (hne : new ≠ old) (h : l.any (fun np => np.1 == new) = true) :
    (dictErase l old).any (fun np => np.1 == new) = true := by
  rcases List.any_eq_true.mp h with ⟨np, hnp, he⟩
  refine List.any_eq_true.mpr ⟨np, ?_, he⟩
  refine List.mem_filter.mpr ⟨hnp, ?_⟩
  simp only [decide_eq_true_eq]
  rw [eq_of_beq he]
  exact hne

lemma dictInsert_length_of_any (l : ParameterStore) (k : String)
    (v : AnimationParameter) (h : l.any (fun np => np.1 == k) = true) :
    (dictInsert l k v).length = l.length := by
  unfold dictInsert
  rw [if_pos h]
  exact List.length_map _ _

/-- C8 amended: `edit_parameter` performs no duplicate check on rename.
When `new ≠ old` and `old` is present, it succeeds, stores the parameter
(range and default updated, keyframes intact) under `new` — overwriting any
parameter previously held there, so the store shrinks by one entry when
`new` already existed — and removes the key `old`. -/
theorem edit_parameter_rename_overwrite (store : ParameterStore)
    (old new : String) (min_val max_val default_val : ℚ)
    (param : AnimationParameter) (hold : store.lookup old = some param)
    (hne : new ≠ old) (hnd : (store.map Prod.fst).Nodup) :
    (TimelineApp.edit_parameter store old new min_val max_val default_val).isSome =
      true ∧
    ((TimelineApp.edit_parameter store old new min_val max_val
        default_val).getD []).lookup new =
      some { param with
             name := new
             min_value := min_val
             max_value := max_val
             default_value := default_val } ∧
    ((TimelineApp.edit_parameter store old new min_val max_val
        default_val).getD []).lookup old = none ∧
    (store.any (fun np => np.1 == new) = true →
      ((TimelineApp.edit_parameter store old new min_val max_val
        default_val).getD []).length + 1 = store.length) := by
  have hres : TimelineApp.edit_parameter store old new min_val max_val default_val =
      some (dictInsert (dictErase store old) new
        { param with
          name := new
          min_value := min_val
          max_value := max_val
          default_value := default_val }) := by
    unfold TimelineApp.edit_parameter
    rw [hold]
    simp only [Option.map_some']
    simp only [if_pos hne]
  rw [hres]
  simp only [Option.isSome_some, Option.getD_some]
  refine ⟨by trivial, dictInsert_lookup_self _ _ _, ?_, ?_⟩
  · rw [dictInsert_lookup_other _ _ _ _ (fun he => hne he.symm)]
    exact dictErase_lookup_self store old
  · intro hany
    rw [dictInsert_length_of_any _ _ _ (dictErase_any_of_ne store old new hne hany)]
    have := dictErase_length store old hnd (mem_keys_of_lookup store old param hold)
    omega

theorem edit_parameter_rename_overwrite_witness :
    (TimelineApp.edit_parameter demoStoreAB "A" "B" 0 100 0).isSome = true ∧
    ((TimelineApp.edit_parameter demoStoreAB "A" "B" 0 100 0).getD []).lookup "B" =
      some { AnimationParameter.init "A" 0 100 0 with
             name := "B"
             min_value := 0
             max_value := 100
             default_value := 0 } ∧
    ((TimelineApp.edit_parameter demoStoreAB "A" "B" 0 100 0).getD []).lookup "A" =
      none ∧
    ((TimelineApp.edit_parameter demoStoreAB "A" "B" 0 100 0).getD []).length + 1 =
      demoStoreAB.length := by
  have h := edit_parameter_rename_overwrite demoStoreAB "A" "B" 0 100 0
    (AnimationParameter.init "A" 0 100 0) (by decide) (by decide) (by decide)
  exact ⟨h.1, h.2.1, h.2.2.1, h.2.2.2 (by decide)⟩
